import Mathlib

/-
Verification development for the nashville-housing-data-pipeline loader
(scripts/load_to_scripts.py).  The Python source is shallowly embedded:
pure helpers (sanitize, pg_type_from_series, generate_create_table_sql,
wait_for_db) become Lean functions over `List Char` / `String`, the pandas
DataFrame becomes a list of named columns of cells, and the database phase
of `main` (lines 127-159) becomes an explicit state-passing interpreter
with a committed/pending transaction model.  Library behaviour the script
relies on (Python `str.strip/lower`, `re.sub`, pandas `read_csv` column
dtype inference, `pd.to_datetime`) is modelled at the level the claims
need; each such model is documented at its definition.
-/

/-- Characters matched by the regex class `[0-9a-z]` in `sanitize`. -/
def isDigitChar (c : Char) : Bool := 48 ≤ c.toNat && c.toNat ≤ 57

def isLowerChar (c : Char) : Bool := 97 ≤ c.toNat && c.toNat ≤ 122

def isAlnumLower (c : Char) : Bool := isDigitChar c || isLowerChar c

/-- The underscore character, target of `re.sub(r'[^0-9a-z]+', '_', s)`. -/
def isUnd (c : Char) : Bool := c == '_'

/-- Models Python `str.strip()`'s whitespace set (ASCII subset). -/
def pySpace (c : Char) : Bool :=
  c.toNat = 32 || c.toNat = 9 || c.toNat = 10 || c.toNat = 11 || c.toNat = 12 || c.toNat = 13

/-- Models Python `str.lower()` on the ASCII range (sufficient here: any
character left uppercase by this model is outside `[0-9a-z]` and is squashed
to an underscore by the next step of `sanitize` anyway). -/
def pyToLower (c : Char) : Char :=
  if 65 ≤ c.toNat ∧ c.toNat ≤ 90 then Char.ofNat (c.toNat + 32) else c

/-- Drop trailing characters satisfying `p` (via reverse). -/
def dropTrailing (p : Char → Bool) (l : List Char) : List Char :=
  (l.reverse.dropWhile p).reverse

/-- Models Python `str.strip(chars)`: drop leading and trailing characters
satisfying `p`. -/
def pyStripList (p : Char → Bool) (l : List Char) : List Char :=
  dropTrailing p (l.dropWhile p)

/-- Models `re.sub(r'[^0-9a-z]+', '_', s)`: replace each maximal run of
characters outside `[0-9a-z]` by a single underscore.  The flag records
whether we are inside such a run (so only its first character emits `_`). -/
def squashGo : Bool → List Char → List Char
  | _, [] => []
  | inRun, c :: cs =>
    if isAlnumLower c then c :: squashGo false cs
    else if inRun then squashGo true cs
    else '_' :: squashGo true cs

/-- Models `re.sub(r'__+', '_', s)`: collapse each run of underscores to a
single underscore.  The flag records whether the previous character was an
(already emitted) underscore. -/
def collapseGo : Bool → List Char → List Char
  | _, [] => []
  | afterUnd, c :: cs =>
    if isUnd c then (if afterUnd then collapseGo true cs else c :: collapseGo true cs)
    else c :: collapseGo false cs

/-- The body of `sanitize` before the `col_` fallback:
`s = str(col).strip().lower(); s = re.sub(...); s = re.sub(...).strip('_')`. -/
def sanitizeList (l : List Char) : List Char :=
  pyStripList isUnd (collapseGo false (squashGo false ((pyStripList pySpace l).map pyToLower)))

/-- Embedding of `sanitize` (load_to_scripts.py lines 24-30). -/
def sanitize (x : String) : String :=
  match sanitizeList x.data with
  | [] => "col_"
  | c :: cs =>
    if isDigitChar c then String.mk ('c' :: 'o' :: 'l' :: '_' :: c :: cs)
    else String.mk (c :: cs)

/-- Well-formed sanitized body, strict form: every character is in
`[0-9a-z_]` and every underscore is immediately followed by an
alphanumeric (hence no double and no trailing underscore). -/
def wfS : List Char → Bool
  | [] => true
  | c :: cs =>
    if isAlnumLower c then wfS cs
    else if isUnd c then
      match cs with
      | [] => false
      | d :: _ => isAlnumLower d && wfS cs
    else false

/-- Loose form: like `wfS` but a single trailing underscore is allowed. -/
def wfL : List Char → Bool
  | [] => true
  | c :: cs =>
    if isAlnumLower c then wfL cs
    else if isUnd c then
      match cs with
      | [] => true
      | d :: _ => isAlnumLower d && wfL cs
    else false

/-- No two adjacent underscores. -/
def noDoubleUnd : List Char → Bool
  | [] => true
  | [_] => true
  | c :: d :: cs => !(isUnd c && isUnd d) && noDoubleUnd (d :: cs)

/-- The invariant claimed for sanitized identifiers: non-empty, only
lowercase alphanumerics and underscores, not starting with a digit, no
repeated underscore, no leading or trailing underscore. -/
def claimedInvariant (s : String) : Bool :=
  match s.data with
  | [] => false
  | c :: cs =>
    (c :: cs).all (fun d => isAlnumLower d || isUnd d) &&
    !(isDigitChar c) && !(isUnd c) &&
    noDoubleUnd (c :: cs) &&
    !(isUnd ((c :: cs).getLastD 'x'))

/-- A cell of the tabular dataset: a CSV field is either missing (empty
field, parsed to NaN) or a string; after the `sale_date` coercion a cell
can also be a date object. -/
inductive Cell
  | missing
  | str (s : String)
  | date (y m d : Nat)
deriving DecidableEq, Repr

/-- Pandas column dtypes relevant to `pg_type_from_series`. -/
inductive Dtype
  | int64
  | float64
  | boolDt
  | obj
deriving DecidableEq, Repr

/-- A pandas Series: its dtype together with its cells. -/
structure Series where
  dtype : Dtype
  values : List Cell
deriving DecidableEq, Repr

def cellIsMissing : Cell → Bool
  | Cell.missing => true
  | _ => false

/-- Strip one leading `+` or `-` sign. -/
def stripSign : List Char → List Char
  | [] => []
  | c :: cs => if c.toNat = 43 ∨ c.toNat = 45 then cs else c :: cs

/-- Models the integer literals the pandas CSV parser accepts for int64
(optional sign, then digits). -/
def isIntLit (s : String) : Bool :=
  match stripSign s.data with
  | [] => false
  | c :: cs => (c :: cs).all isDigitChar

/-- Mantissa of a float literal: digits with an optional single decimal
point, at least one digit present. -/
def isMantissa (l : List Char) : Bool :=
  match l.dropWhile isDigitChar with
  | [] => !l.isEmpty
  | c :: frac =>
    if c.toNat = 46 then
      (!(l.takeWhile isDigitChar).isEmpty || !frac.isEmpty) && frac.all isDigitChar
    else false

/-- A character that is not an exponent marker `e`/`E`. -/
def notExpChar (c : Char) : Bool := !(c.toNat = 101 || c.toNat = 69)

/-- Models the float literals the pandas CSV parser accepts for float64
(optional sign, mantissa, optional exponent part). -/
def isFloatLit (s : String) : Bool :=
  let l := stripSign s.data
  match l.dropWhile notExpChar with
  | [] => isMantissa (l.takeWhile notExpChar)
  | _ :: ex =>
    isMantissa (l.takeWhile notExpChar) &&
      (match stripSign ex with
       | [] => false
       | c :: cs => (c :: cs).all isDigitChar)

/-- Models the boolean tokens the pandas CSV parser accepts for bool. -/
def isBoolLit (s : String) : Bool :=
  s = "True" || s = "TRUE" || s = "true" || s = "False" || s = "FALSE" || s = "false"

def cellIsIntLit : Cell → Bool
  | Cell.str s => isIntLit s
  | _ => false

def cellIsFloatOrMissing : Cell → Bool
  | Cell.str s => isFloatLit s
  | Cell.missing => true
  | _ => false

def cellIsBoolLit : Cell → Bool
  | Cell.str s => isBoolLit s
  | _ => false

/-- Models pandas `read_csv` column dtype inference: a non-empty column of
integer literals (no missing value) is int64; a non-empty column whose
fields are all numeric literals or missing (in particular an all-missing
column of NaNs) is float64; a non-empty column of boolean tokens with no
missing value is bool; anything else (including an empty column) is object. -/
def inferDtype (vals : List Cell) : Dtype :=
  if vals ≠ [] ∧ vals.all cellIsIntLit = true then Dtype.int64
  else if vals ≠ [] ∧ vals.all cellIsFloatOrMissing = true then Dtype.float64
  else if vals ≠ [] ∧ vals.all cellIsBoolLit = true then Dtype.boolDt
  else Dtype.obj

/-- A column as produced by `pd.read_csv`: its cells with the inferred dtype. -/
def read_csv_column (vals : List Cell) : Series :=
  ⟨inferDtype vals, vals⟩

def digitVal (c : Char) : Nat := c.toNat - 48

/-- Models the ISO `YYYY-MM-DD` subset of `pd.to_datetime`'s parser, which
is the format the pipeline's date data uses; other strings are treated as
unparseable. -/
def pyParseDate (s : String) : Option (Nat × Nat × Nat) :=
  match s.data with
  | [y1, y2, y3, y4, a, m1, m2, b, d1, d2] =>
    if a.toNat = 45 ∧ b.toNat = 45 ∧ ([y1, y2, y3, y4, m1, m2, d1, d2].all isDigitChar) = true then
      let y := ((digitVal y1 * 10 + digitVal y2) * 10 + digitVal y3) * 10 + digitVal y4
      let m := digitVal m1 * 10 + digitVal m2
      let d := digitVal d1 * 10 + digitVal d2
      if 1 ≤ m ∧ m ≤ 12 ∧ 1 ≤ d ∧ d ≤ 31 then some (y, m, d) else none
    else none
  | _ => none

def cellDateParses : Cell → Bool
  | Cell.str s => (pyParseDate s).isSome
  | Cell.date _ _ _ => true
  | Cell.missing => false

/-- Embedding of `pg_type_from_series` (lines 32-47): dtype checks first,
then for object columns try `pd.to_datetime` on the first 50 non-null
values and return DATE if at least one parses. -/
def pg_type_from_series (s : Series) : String :=
  if s.dtype = Dtype.int64 then "BIGINT"
  else if s.dtype = Dtype.float64 then "DOUBLE PRECISION"
  else if s.dtype = Dtype.boolDt then "BOOLEAN"
  else
    let non_null := s.values.filter fun c => !(cellIsMissing c)
    if non_null ≠ [] ∧ (non_null.take 50).any cellDateParses = true then "DATE"
    else "TEXT"

/-- Models Python `str.join` on a list of strings. -/
def joinSep (sep : String) : List String → String
  | [] => ""
  | [a] => a
  | a :: b :: rest => a ++ sep ++ joinSep sep (b :: rest)

/-- The rendered column definitions of the generated DDL, one per source
column, in order: sanitized name, space, inferred type. -/
def ddlColumnParts (df : List (String × Series)) : List String :=
  df.map fun p => sanitize p.1 ++ " " ++ pg_type_from_series p.2

/-- Embedding of `generate_create_table_sql` (lines 49-58). -/
def generate_create_table_sql (df : List (String × Series)) (schema table : String) : String :=
  let columns_sql := joinSep ",\n    " (ddlColumnParts df)
  "CREATE TABLE IF NOT EXISTS " ++ schema ++ "." ++ table ++
    " (\n    id SERIAL PRIMARY KEY,\n    " ++ columns_sql ++ "\n);\n"

/-- Spec-side rendering of the claimed DDL shape, written from the claim's
words: `CREATE TABLE IF NOT EXISTS <schema>.<table> (id <auto-increment>
PRIMARY KEY, <col1> <type1>, ...)` with a synthetic `id` primary key first
and then exactly one definition per source column in dataset order. -/
def ddlClaim (df : List (String × Series)) (schema table : String) : String :=
  "CREATE TABLE IF NOT EXISTS " ++ schema ++ "." ++ table ++ " (\n    " ++
    joinSep ",\n    " ("id SERIAL PRIMARY KEY" :: ddlColumnParts df) ++ "\n);\n"

/-- Predicate of line 102: `str(c).lower().startswith('unnamed')`. -/
def isUnnamedRaw (name : String) : Bool :=
  "unnamed".data.isPrefixOf (name.data.map pyToLower)

/-- Models `pd.read_csv` at the column level: each raw column keeps its
name and gets a dtype inferred from its cells. -/
def read_csv (raw : List (String × List Cell)) : List (String × Series) :=
  raw.map fun p => (p.1, read_csv_column p.2)

/-- Models line 111: `pd.to_datetime(df['sale_date'], errors='coerce').dt.date`
— every cell is coerced to the parsed date, unparseable cells become
missing, and the assigned column has object dtype. -/
def coerce_sale_date (s : Series) : Series :=
  ⟨Dtype.obj, s.values.map fun c =>
    match c with
    | Cell.missing => Cell.missing
    | Cell.str v =>
      match pyParseDate v with
      | some (y, m, d) => Cell.date y m d
      | none => Cell.missing
    | Cell.date y m d => Cell.date y m d⟩

/-- The DataFrame preprocessing of `main` (lines 99-111): read the CSV,
drop columns whose lowercased raw name starts with `unnamed`, rename every
column to its sanitized name, then coerce a `sale_date` column if present. -/
def prepareDf (raw : List (String × List Cell)) : List (String × Series) :=
  let df0 := read_csv raw
  let kept := df0.filter fun p => !(isUnnamedRaw p.1)
  let renamed := kept.map fun p => (sanitize p.1, p.2)
  renamed.map fun p => if p.1 = "sale_date" then (p.1, coerce_sale_date p.2) else p

/-- Committed database state visible outside any open transaction. -/
structure PgState where
  tablePresent : Bool
  rowCount : Nat
deriving DecidableEq, Repr

/-- A psycopg2 connection with `autocommit = False`: the committed state
plus the pending view including uncommitted work of the open transaction. -/
structure Conn where
  committed : PgState
  pending : PgState
deriving DecidableEq, Repr

def execCreateTable (c : Conn) : Conn :=
  { c with pending := { c.pending with tablePresent := true } }

def execCopy (c : Conn) (n : Nat) : Conn :=
  { c with pending := { c.pending with rowCount := c.pending.rowCount + n } }

def commitTx (c : Conn) : Conn := { c with committed := c.pending }

def rollbackTx (c : Conn) : Conn := { c with pending := c.committed }

/-- Embedding of `table_exists` (lines 72-82): a point query against
catalog metadata, reading the table's presence. -/
def table_exists (c : Conn) : Bool := c.committed.tablePresent

/-- Number of rows the COPY appends: the row count of the DataFrame. -/
def dfRowCount (df : List (String × Series)) : Nat :=
  match df with
  | [] => 0
  | p :: _ => p.2.values.length

structure RunResult where
  db : PgState
  success : Bool
  ddlExecuted : List String
deriving DecidableEq, Repr

/-- Embedding of the database phase of `main` (lines 127-159): if the
table is absent, execute the generated DDL and `conn.commit()`; then COPY
the rows and commit.  `copyFails` injects a bulk-load failure, on which the
`except` clause rolls back the open transaction and the run fails. -/
def mainLoad (raw : List (String × List Cell)) (db0 : PgState) (schema table : String)
    (copyFails : Bool) : RunResult :=
  let df := prepareDf raw
  let conn0 : Conn := ⟨db0, db0⟩
  let conn1 := if table_exists conn0 then conn0 else commitTx (execCreateTable conn0)
  let ddls : List String :=
    if table_exists conn0 then [] else [generate_create_table_sql df schema table]
  if copyFails then ⟨(rollbackTx conn1).committed, false, ddls⟩
  else ⟨(commitTx (execCopy conn1 (dfRowCount df))).committed, true, ddls⟩

def max_retries : Nat := 20

def wait_seconds : Nat := 3

/-- The retry loop of `wait_for_db` (lines 60-70): `connOk i` tells whether
the `i`-th connection attempt succeeds; on success the attempt index is
returned, after `fuel` consecutive failures the loop raises. -/
def wait_for_db_go (connOk : Nat → Bool) : Nat → Nat → Except String Nat
  | 0, _ => Except.error "Database not reachable after retries"
  | Nat.succ fuel, i => if connOk i then Except.ok i else wait_for_db_go connOk fuel (i + 1)

/-- Embedding of `wait_for_db` (lines 60-70) with its defaults
`max_retries=20`, `wait_seconds=3`. -/
def wait_for_db (connOk : Nat → Bool) : Except String Nat :=
  wait_for_db_go connOk max_retries 0

example : sanitize "Sale Date" = "sale_date" := by decide
example : sanitize "" = "col_" := by decide
example : sanitize "col_" = "col" := by decide
example : sanitize "  12 Price!! " = "col_12_price" := by decide
example : sanitize "!" = "col_" := by decide
example : pg_type_from_series (read_csv_column [Cell.str "1", Cell.str "2"]) = "BIGINT" := by decide
example : pg_type_from_series (read_csv_column [Cell.str "1.5", Cell.str "2"]) = "DOUBLE PRECISION" := by decide
example : pg_type_from_series (read_csv_column [Cell.str "1", Cell.missing]) = "DOUBLE PRECISION" := by decide
example : pg_type_from_series (read_csv_column [Cell.missing]) = "DOUBLE PRECISION" := by decide
example : pg_type_from_series (read_csv_column [Cell.str "true", Cell.str "false"]) = "BOOLEAN" := by decide
example : pg_type_from_series (read_csv_column [Cell.str "2024-01-01", Cell.str "not a date"]) = "DATE" := by decide
example : pg_type_from_series (read_csv_column [Cell.str "abc", Cell.str "def"]) = "TEXT" := by decide
example : pg_type_from_series ⟨Dtype.obj, [Cell.missing]⟩ = "TEXT" := by decide
example :
    (mainLoad [("a", [Cell.str "1"])] ⟨false, 0⟩ "public" "t" true).db.tablePresent = true := by
  decide
example :
    prepareDf [("Unnamed: 0", [Cell.str "1"]), ("Sale Date", [Cell.str "2024-01-02"])] =
      [("sale_date", ⟨Dtype.obj, [Cell.date 2024 1 2]⟩)] := by decide

theorem alnum_bounds {c : Char} (h : isAlnumLower c = true) :
    (48 ≤ c.toNat ∧ c.toNat ≤ 57) ∨ (97 ≤ c.toNat ∧ c.toNat ≤ 122) := by
  simpa [isAlnumLower, isDigitChar, isLowerChar, Bool.or_eq_true, Bool.and_eq_true,
    decide_eq_true_eq] using h

theorem und_eq {c : Char} (h : isUnd c = true) : c = '_' := eq_of_beq h

theorem alnum_not_und {c : Char} (h : isAlnumLower c = true) : isUnd c = false := by
  cases hu : isUnd c with
  | false => rfl
  | true =>
    rw [und_eq hu] at h
    exact absurd h (by decide)

theorem alnum_or_und_not_space {c : Char} (h : isAlnumLower c = true ∨ isUnd c = true) :
    pySpace c = false := by
  rcases h with h | h
  · rcases alnum_bounds h with ⟨h1, h2⟩ | ⟨h1, h2⟩ <;>
      · simp only [pySpace, Bool.or_eq_false_iff, decide_eq_false_iff_not]
        omega
  · rw [und_eq h]; decide

theorem alnum_or_und_toLower {c : Char} (h : isAlnumLower c = true ∨ isUnd c = true) :
    pyToLower c = c := by
  rcases h with h | h
  · have hb : ¬(65 ≤ c.toNat ∧ c.toNat ≤ 90) := by
      rcases alnum_bounds h with ⟨h1, h2⟩ | ⟨h1, h2⟩ <;> omega
    simp [pyToLower, hb]
  · rw [und_eq h]; decide

theorem dropWhile_all_false (p : Char → Bool) (l : List Char) (h : ∀ c ∈ l, p c = false) :
    l.dropWhile p = l := by
  cases l with
  | nil => rfl
  | cons c cs => simp [List.dropWhile_cons, h c (by simp)]

theorem takeWhile_all_true (p : Char → Bool) (l : List Char) (h : ∀ c ∈ l, p c = true) :
    l.takeWhile p = l :=
  List.takeWhile_eq_self_iff.mpr h

theorem dropWhile_all_true (p : Char → Bool) (l : List Char) (h : ∀ c ∈ l, p c = true) :
    l.dropWhile p = [] :=
  List.dropWhile_eq_nil_iff.mpr h

theorem map_id_of (f : Char → Char) : ∀ l : List Char, (∀ c ∈ l, f c = c) → l.map f = l := by
  intro l
  induction l with
  | nil => intro _; rfl
  | cons c cs ih =>
    intro h
    rw [List.map_cons, h c (List.mem_cons_self c cs),
      ih fun d hd => h d (List.mem_cons_of_mem c hd)]

theorem pyStripList_id (p : Char → Bool) (l : List Char) (h : ∀ c ∈ l, p c = false) :
    pyStripList p l = l := by
  unfold pyStripList dropTrailing
  rw [dropWhile_all_false p l h,
    dropWhile_all_false p l.reverse (fun c hc => h c (List.mem_reverse.mp hc)),
    List.reverse_reverse]

theorem getLastD_concat' (l : List Char) (e x : Char) : (l ++ [e]).getLastD x = e :=
  List.getLastD_concat x e l

theorem bnot_true {b : Bool} (h : ¬b = true) : b = false := by
  cases b with
  | false => rfl
  | true => exact absurd rfl h

theorem wfL_cons_alnum_eq {c : Char} (cs : List Char) (hc : isAlnumLower c = true) :
    wfL (c :: cs) = wfL cs := by
  simp [wfL, hc]

theorem wfL_cons_und_eq {c d : Char} (t : List Char) (hc : isAlnumLower c = false)
    (hu : isUnd c = true) :
    wfL (c :: d :: t) = (isAlnumLower d && wfL (d :: t)) := by
  simp [wfL, hc, hu]

theorem wfS_cons_alnum_eq {c : Char} (cs : List Char) (hc : isAlnumLower c = true) :
    wfS (c :: cs) = wfS cs := by
  simp [wfS, hc]

theorem wfS_cons_und_eq {c d : Char} (t : List Char) (hc : isAlnumLower c = false)
    (hu : isUnd c = true) :
    wfS (c :: d :: t) = (isAlnumLower d && wfS (d :: t)) := by
  simp [wfS, hc, hu]

theorem wfS_tail {c : Char} {cs : List Char} (hw : wfS (c :: cs) = true) : wfS cs = true := by
  by_cases hc : isAlnumLower c = true
  · simpa [wfS, hc] using hw
  · cases hu : isUnd c with
    | false => simp [wfS, hc, hu] at hw
    | true =>
      cases cs with
      | nil => simp [wfS, hc, hu] at hw
      | cons d t =>
        have h : isAlnumLower d = true ∧ wfS (d :: t) = true := by
          simpa [wfS, hc, hu, Bool.and_eq_true] using hw
        exact h.2

theorem wfS_und_cons {c d : Char} {t : List Char} (hu : isUnd c = true)
    (hw : wfS (c :: d :: t) = true) : isAlnumLower d = true ∧ wfS (d :: t) = true := by
  by_cases hc : isAlnumLower c = true
  · rw [alnum_not_und hc] at hu
    exact absurd hu (by decide)
  · simpa [wfS, hc, hu, Bool.and_eq_true] using hw

theorem wfL_und_cons {c d : Char} {t : List Char} (hu : isUnd c = true)
    (hw : wfL (c :: d :: t) = true) : isAlnumLower d = true ∧ wfL (d :: t) = true := by
  by_cases hc : isAlnumLower c = true
  · rw [alnum_not_und hc] at hu
    exact absurd hu (by decide)
  · simpa [wfL, hc, hu, Bool.and_eq_true] using hw

theorem wfS_wfL : ∀ l : List Char, wfS l = true → wfL l = true := by
  intro l
  induction l with
  | nil => intro _; rfl
  | cons c cs ih =>
    intro hw
    by_cases hc : isAlnumLower c = true
    · have hcs : wfS cs = true := by simpa [wfS, hc] using hw
      simp [wfL, hc, ih hcs]
    · cases hu : isUnd c with
      | false => simp [wfS, hc, hu] at hw
      | true =>
        cases cs with
        | nil => simp [wfS, hc, hu] at hw
        | cons d t =>
          have h := wfS_und_cons hu hw
          rw [wfL_cons_und_eq t (bnot_true hc) hu]
          simp [h.1, ih h.2]

theorem wfS_chars : ∀ l : List Char, wfS l = true →
    ∀ c ∈ l, isAlnumLower c = true ∨ isUnd c = true := by
  intro l
  induction l with
  | nil => intro _ c hc; simp at hc
  | cons c cs ih =>
    intro hw d hd
    rcases List.mem_cons.mp hd with hdc | hdcs
    · subst hdc
      by_cases hc : isAlnumLower d = true
      · exact Or.inl hc
      · cases hu : isUnd d with
        | false => simp [wfS, hc, hu] at hw
        | true => exact Or.inr rfl
    · exact ih (wfS_tail hw) d hdcs

theorem wfS_last : ∀ l : List Char, wfS l = true →
    l = [] ∨ ∃ q e, l = q ++ [e] ∧ isAlnumLower e = true := by
  intro l
  induction l with
  | nil => intro _; exact Or.inl rfl
  | cons c cs ih =>
    intro hw
    rcases ih (wfS_tail hw) with hnil | ⟨q, e, heq, he⟩
    · subst hnil
      have hc : isAlnumLower c = true := by
        by_cases hc : isAlnumLower c = true
        · exact hc
        · cases hu : isUnd c with
          | false => simp [wfS, hc, hu] at hw
          | true => simp [wfS, hc, hu] at hw
      exact Or.inr ⟨[], c, rfl, hc⟩
    · exact Or.inr ⟨c :: q, e, by rw [heq]; rfl, he⟩

theorem wfS_noDD : ∀ l : List Char, wfS l = true → noDoubleUnd l = true := by
  intro l
  induction l with
  | nil => intro _; rfl
  | cons c cs ih =>
    intro hw
    cases cs with
    | nil => rfl
    | cons d t =>
      have hn := ih (wfS_tail hw)
      by_cases hc : isAlnumLower c = true
      · simp [noDoubleUnd, alnum_not_und hc, hn]
      · cases hu : isUnd c with
        | false => simp [wfS, hc, hu] at hw
        | true =>
          have hd := (wfS_und_cons hu hw).1
          simp [noDoubleUnd, alnum_not_und hd, hn]

theorem squashGo_true_head : ∀ (cs : List Char) (d : Char) (t : List Char),
    squashGo true cs = d :: t → isAlnumLower d = true := by
  intro cs
  induction cs with
  | nil => intro d t h; simp [squashGo] at h
  | cons c cs ih =>
    intro d t h
    by_cases hc : isAlnumLower c = true
    · rw [squashGo, if_pos hc] at h
      injection h with h1 _
      exact h1 ▸ hc
    · rw [squashGo, if_neg (by simp [hc]), if_pos rfl] at h
      exact ih d t h

theorem wfL_squashGo : ∀ (l : List Char) (b : Bool), wfL (squashGo b l) = true := by
  intro l
  induction l with
  | nil => intro b; rfl
  | cons c cs ih =>
    intro b
    by_cases hc : isAlnumLower c = true
    · rw [squashGo, if_pos hc]
      simp [wfL, hc, ih false]
    · cases b with
      | true =>
        rw [squashGo, if_neg (by simp [hc]), if_pos rfl]
        exact ih true
      | false =>
        rw [squashGo, if_neg (by simp [hc]), if_neg (by simp)]
        cases hr : squashGo true cs with
        | nil => decide
        | cons d t =>
          have hd := squashGo_true_head cs d t hr
          have hwl := ih true
          rw [hr] at hwl
          rw [wfL_cons_und_eq t (by decide) (by decide)]
          simp [hd, hwl]

theorem squashGo_id : ∀ l : List Char, wfS l = true →
    squashGo false l = l ∧
      ((∀ d t, l = d :: t → isAlnumLower d = true) → squashGo true l = l) := by
  intro l
  induction l with
  | nil => intro _; exact ⟨rfl, fun _ => rfl⟩
  | cons c cs ih =>
    intro hw
    by_cases hc : isAlnumLower c = true
    · have hcs := wfS_tail hw
      have h1 : squashGo false (c :: cs) = c :: cs := by
        rw [squashGo, if_pos hc, (ih hcs).1]
      have h2 : squashGo true (c :: cs) = c :: cs := by
        rw [squashGo, if_pos hc, (ih hcs).1]
      exact ⟨h1, fun _ => h2⟩
    · cases hu : isUnd c with
      | false => simp [wfS, hc, hu] at hw
      | true =>
        have hceq : c = '_' := und_eq hu
        subst hceq
        cases cs with
        | nil => simp [wfS, hc, hu] at hw
        | cons d t =>
          have hdw := wfS_und_cons hu hw
          have h2 : squashGo true (d :: t) = d :: t :=
            (ih hdw.2).2 (fun d' t' he => by injection he with he1 _; exact he1 ▸ hdw.1)
          refine ⟨?_, ?_⟩
          · rw [squashGo, if_neg (by simp [hc]), if_neg (by simp), h2]
          · intro hcontra
            exact absurd (hcontra '_' (d :: t) rfl) (by decide)

theorem collapseGo_id : ∀ l : List Char, wfL l = true →
    collapseGo false l = l ∧
      ((∀ d t, l = d :: t → isAlnumLower d = true) → collapseGo true l = l) := by
  intro l
  induction l with
  | nil => intro _; exact ⟨rfl, fun _ => rfl⟩
  | cons c cs ih =>
    intro hw
    by_cases hc : isAlnumLower c = true
    · have hu : isUnd c = false := alnum_not_und hc
      have hcs : wfL cs = true := by simpa [wfL, hc] using hw
      have h1 : collapseGo false (c :: cs) = c :: cs := by
        rw [collapseGo, if_neg (by simp [hu]), (ih hcs).1]
      exact ⟨h1, fun _ => by rw [collapseGo, if_neg (by simp [hu]), (ih hcs).1]⟩
    · cases hu : isUnd c with
      | false => simp [wfL, hc, hu] at hw
      | true =>
        have hceq : c = '_' := und_eq hu
        subst hceq
        cases cs with
        | nil =>
          exact ⟨by decide, fun hcontra => absurd (hcontra '_' [] rfl) (by decide)⟩
        | cons d t =>
          have hdw := wfL_und_cons hu hw
          have hdu : isUnd d = false := alnum_not_und hdw.1
          have h2 : collapseGo true (d :: t) = d :: t :=
            (ih hdw.2).2 (fun d' t' he => by injection he with he1 _; exact he1 ▸ hdw.1)
          refine ⟨?_, ?_⟩
          · rw [collapseGo, if_pos hu, if_neg (by simp), h2]
          · intro hcontra
            exact absurd (hcontra '_' (d :: t) rfl) (by decide)

theorem wfL_decomp : ∀ l : List Char, wfL l = true →
    wfS l = true ∨ ∃ q, l = q ++ ['_'] ∧ wfS q = true := by
  intro l
  induction l with
  | nil => intro _; exact Or.inl rfl
  | cons c cs ih =>
    intro hw
    by_cases hc : isAlnumLower c = true
    · have hcs : wfL cs = true := by rw [wfL_cons_alnum_eq cs hc] at hw; exact hw
      rcases ih hcs with h | ⟨q, heq, hq⟩
      · exact Or.inl (by rw [wfS_cons_alnum_eq cs hc]; exact h)
      · refine Or.inr ⟨c :: q, by rw [heq]; rfl, ?_⟩
        rw [wfS_cons_alnum_eq q hc]
        exact hq
    · cases hu : isUnd c with
      | false => simp [wfL, hc, hu] at hw
      | true =>
        have hceq : c = '_' := und_eq hu
        subst hceq
        cases cs with
        | nil => exact Or.inr ⟨[], rfl, rfl⟩
        | cons d t =>
          have hdw := wfL_und_cons hu hw
          rcases ih hdw.2 with h | ⟨q, heq, hq⟩
          · refine Or.inl ?_
            rw [wfS_cons_und_eq t (bnot_true hc) hu]
            simp [hdw.1, h]
          · cases q with
            | nil =>
              simp only [List.nil_append] at heq
              injection heq with he1 _
              exact absurd (he1 ▸ hdw.1) (by decide)
            | cons e q' =>
              rw [List.cons_append] at heq
              injection heq with he1 he2
              refine Or.inr ⟨'_' :: e :: q', ?_, ?_⟩
              · subst he1; subst he2; simp
              · rw [wfS_cons_und_eq q' (by decide) (by decide)]
                simp [he1 ▸ hdw.1, hq]

theorem dropTrailing_concat_alnum {q : List Char} {e : Char} (he : isAlnumLower e = true) :
    dropTrailing isUnd (q ++ [e]) = q ++ [e] := by
  simp [dropTrailing, List.dropWhile_cons, alnum_not_und he]

theorem dropTrailing_concat_und {q : List Char} (hq : wfS q = true) :
    dropTrailing isUnd (q ++ ['_']) = q := by
  rcases wfS_last q hq with hnil | ⟨q0, e, heq, he⟩
  · subst hnil; rfl
  · subst heq
    simp [dropTrailing, List.dropWhile_cons, alnum_not_und he,
      (by decide : isUnd '_' = true)]

theorem dropTrailing_id_wfS {l : List Char} (h : wfS l = true) : dropTrailing isUnd l = l := by
  rcases wfS_last l h with hnil | ⟨q, e, heq, he⟩
  · subst hnil; rfl
  · subst heq; exact dropTrailing_concat_alnum he

theorem wfL_dropWhile_und : ∀ l : List Char, wfL l = true →
    l.dropWhile isUnd = [] ∨
      ∃ d t, l.dropWhile isUnd = d :: t ∧ isAlnumLower d = true ∧ wfL (d :: t) = true := by
  intro l hw
  cases l with
  | nil => exact Or.inl rfl
  | cons c cs =>
    by_cases hc : isAlnumLower c = true
    · have hcs : wfL cs = true := by rw [wfL_cons_alnum_eq cs hc] at hw; exact hw
      refine Or.inr ⟨c, cs, ?_, hc, ?_⟩
      · simp [List.dropWhile_cons, alnum_not_und hc]
      · rw [wfL_cons_alnum_eq cs hc]; exact hcs
    · cases hu : isUnd c with
      | false => simp [wfL, hc, hu] at hw
      | true =>
        cases cs with
        | nil => exact Or.inl (by simp [List.dropWhile_cons, hu])
        | cons d t =>
          have hdw := wfL_und_cons hu hw
          refine Or.inr ⟨d, t, ?_, hdw.1, hdw.2⟩
          simp [List.dropWhile_cons, hu, alnum_not_und hdw.1]

theorem sanitizeList_spec (l : List Char) :
    sanitizeList l = [] ∨
      ∃ d t, sanitizeList l = d :: t ∧ isAlnumLower d = true ∧ wfS (d :: t) = true := by
  obtain ⟨s1, hs1⟩ : ∃ s1, squashGo false ((pyStripList pySpace l).map pyToLower) = s1 :=
    ⟨_, rfl⟩
  have hwl : wfL s1 = true := hs1 ▸ wfL_squashGo _ false
  have h0 : sanitizeList l = pyStripList isUnd (collapseGo false s1) := by rw [← hs1]; rfl
  rw [h0, (collapseGo_id s1 hwl).1]
  simp only [pyStripList]
  rcases wfL_dropWhile_und s1 hwl with hnil | ⟨d, t, hdrop, hd, hwldt⟩
  · rw [hnil]; exact Or.inl rfl
  · rw [hdrop]
    rcases wfL_decomp (d :: t) hwldt with hs | ⟨q, heq, hq⟩
    · exact Or.inr ⟨d, t, dropTrailing_id_wfS hs, hd, hs⟩
    · rw [heq, dropTrailing_concat_und hq]
      cases q with
      | nil => exact Or.inl rfl
      | cons e q' =>
        rw [List.cons_append] at heq
        injection heq with he1 _
        exact Or.inr ⟨e, q', rfl, he1 ▸ hd, hq⟩

theorem sanitizeList_fix {d : Char} {t : List Char} (hd : isAlnumLower d = true)
    (hw : wfS (d :: t) = true) : sanitizeList (d :: t) = d :: t := by
  have hchars := wfS_chars (d :: t) hw
  have h1 : pyStripList pySpace (d :: t) = d :: t :=
    pyStripList_id _ _ (fun c hc => alnum_or_und_not_space (hchars c hc))
  have h2 : (d :: t).map pyToLower = d :: t :=
    map_id_of _ _ (fun c hc => alnum_or_und_toLower (hchars c hc))
  have h3 : squashGo false (d :: t) = d :: t := (squashGo_id _ hw).1
  have h4 : collapseGo false (d :: t) = d :: t := (collapseGo_id _ (wfS_wfL _ hw)).1
  have h5 : (d :: t).dropWhile isUnd = d :: t := by
    simp [List.dropWhile_cons, alnum_not_und hd]
  have h6 : dropTrailing isUnd (d :: t) = d :: t := dropTrailing_id_wfS hw
  simp only [sanitizeList]
  rw [h1, h2, h3, h4]
  simp only [pyStripList]
  rw [h5, h6]

theorem wfS_colPrefix {d : Char} {t : List Char} (hd : isAlnumLower d = true)
    (hw : wfS (d :: t) = true) : wfS ('c' :: 'o' :: 'l' :: '_' :: d :: t) = true := by
  rw [wfS_cons_alnum_eq _ (by decide), wfS_cons_alnum_eq _ (by decide),
    wfS_cons_alnum_eq _ (by decide), wfS_cons_und_eq t (by decide) (by decide)]
  simp [hd, hw]

theorem sanitize_mk_fix {d : Char} {t : List Char} (hAl : isAlnumLower d = true)
    (hWf : wfS (d :: t) = true) (hdig : isDigitChar d = false) :
    sanitize (String.mk (d :: t)) = String.mk (d :: t) := by
  have hfix : sanitizeList (d :: t) = d :: t := sanitizeList_fix hAl hWf
  simp only [sanitize]
  rw [hfix]
  simp [hdig]

theorem claimedInvariant_of_wfS {d : Char} {t : List Char} (hAl : isAlnumLower d = true)
    (hdig : isDigitChar d = false) (hWf : wfS (d :: t) = true) :
    claimedInvariant (String.mk (d :: t)) = true := by
  have hchars := wfS_chars (d :: t) hWf
  have hall : (d :: t).all (fun c => isAlnumLower c || isUnd c) = true :=
    List.all_eq_true.mpr (fun c hc => by rcases hchars c hc with h | h <;> simp [h])
  have hnd : noDoubleUnd (d :: t) = true := wfS_noDD _ hWf
  have hundd : isUnd d = false := alnum_not_und hAl
  have hlast : isUnd ((d :: t).getLastD 'x') = false := by
    rcases wfS_last (d :: t) hWf with hnil | ⟨q, e, heq, he⟩
    · simp at hnil
    · rw [heq, getLastD_concat']
      exact alnum_not_und he
  simp only [List.getLastD_eq_getLast?] at hlast
  simp only [claimedInvariant]
  simp [hall, hnd, hundd, hdig, hlast]

/-- C2: the spec claims `sanitize(sanitize(x)) == sanitize(x)` for all x.
This characterization shows sanitize is idempotent on every input except
those whose sanitized body is empty: there `sanitize x = "col_"` while
`sanitize (sanitize x) = "col"`, refuting idempotence (see the
counterexample); on all other inputs the claimed equation holds. -/
theorem sanitize_idem_characterization (x : String) :
    sanitize (sanitize x) = if sanitize x = "col_" then "col" else sanitize x := by
  rcases sanitizeList_spec x.data with h | ⟨d, t, hEq, hAl, hWf⟩
  · have hx : sanitize x = "col_" := by simp only [sanitize, h]
    rw [hx, if_pos rfl]
    decide
  · by_cases hdig : isDigitChar d = true
    · have hx : sanitize x = String.mk ('c' :: 'o' :: 'l' :: '_' :: d :: t) := by
        simp [sanitize, hEq, hdig]
      have hne : String.mk ('c' :: 'o' :: 'l' :: '_' :: d :: t) ≠ "col_" := by
        intro hcon
        have h2 : ('c' :: 'o' :: 'l' :: '_' :: d :: t : List Char) = ['c', 'o', 'l', '_'] :=
          congrArg String.data hcon
        simp at h2
      rw [hx, if_neg hne]
      exact sanitize_mk_fix (by decide) (wfS_colPrefix hAl hWf) (by decide)
    · have hdig' : isDigitChar d = false := bnot_true hdig
      have hx : sanitize x = String.mk (d :: t) := by
        simp [sanitize, hEq, hdig']
      have hne : String.mk (d :: t) ≠ "col_" := by
        intro hcon
        have h2 : (d :: t : List Char) = ['c', 'o', 'l', '_'] := congrArg String.data hcon
        rw [h2] at hWf
        exact absurd hWf (by decide)
      rw [hx, if_neg hne]
      exact sanitize_mk_fix hAl hWf hdig'

/-- C2 counterexample: on the empty raw name the claimed idempotence
equation fails: `sanitize "" = "col_"` but `sanitize (sanitize "") = "col"`. -/
theorem sanitize_not_idempotent_counterexample :
    sanitize (sanitize "") ≠ sanitize "" ∧ sanitize "" = "col_" ∧
      sanitize (sanitize "") = "col" := by decide

/-- C3: the spec claims every sanitized name is a non-empty identifier of
lowercase alphanumerics and underscores, not starting with a digit, with no
repeated and no leading or trailing underscore.  This holds except when the
sanitized body is empty, in which case the output is exactly the fallback
`"col_"`, which ends in an underscore. -/
theorem sanitize_valid_or_fallback (x : String) :
    sanitize x = "col_" ∨ claimedInvariant (sanitize x) = true := by
  rcases sanitizeList_spec x.data with h | ⟨d, t, hEq, hAl, hWf⟩
  · exact Or.inl (by simp only [sanitize, h])
  · refine Or.inr ?_
    by_cases hdig : isDigitChar d = true
    · have hx : sanitize x = String.mk ('c' :: 'o' :: 'l' :: '_' :: d :: t) := by
        simp [sanitize, hEq, hdig]
      rw [hx]
      exact claimedInvariant_of_wfS (by decide) (by decide) (wfS_colPrefix hAl hWf)
    · have hdig' : isDigitChar d = false := bnot_true hdig
      have hx : sanitize x = String.mk (d :: t) := by
        simp [sanitize, hEq, hdig']
      rw [hx]
      exact claimedInvariant_of_wfS hAl hdig' hWf

/-- C3 counterexample: a raw name with no alphanumeric content sanitizes to
the bare fallback `"col_"`, which has a trailing underscore and so violates
the claimed invariant. -/
theorem sanitize_invariant_counterexample :
    sanitize "!" = "col_" ∧ claimedInvariant (sanitize "!") = false := by decide

theorem digit_notExp {x : Char} (hd : isDigitChar x = true) : notExpChar x = true := by
  simp only [isDigitChar, Bool.and_eq_true, decide_eq_true_eq] at hd
  simp only [notExpChar, Bool.not_eq_true', Bool.or_eq_false_iff, decide_eq_false_iff_not]
  omega

theorem isIntLit_isFloatLit {s : String} (h : isIntLit s = true) : isFloatLit s = true := by
  cases hs : stripSign s.data with
  | nil =>
    simp only [isIntLit, hs] at h
    exact absurd h (by decide)
  | cons c cs =>
    simp only [isIntLit, hs] at h
    have hall := List.all_eq_true.mp h
    have hne : ∀ x ∈ c :: cs, notExpChar x = true := fun x hx => digit_notExp (hall x hx)
    have h1 : (c :: cs).dropWhile notExpChar = [] := dropWhile_all_true _ _ hne
    have h2 : (c :: cs).takeWhile notExpChar = c :: cs := takeWhile_all_true _ _ hne
    have h3 : (c :: cs).dropWhile isDigitChar = [] := dropWhile_all_true _ _ hall
    simp only [isFloatLit, hs, h1, h2]
    simp only [isMantissa, h3]
    simp

/-- C4 counterexample: the claim says a column whose non-missing values are
all integers infers INTEGER even when missing values are present; but
pandas reads an integer column containing a missing value as float64, so
the code types it DOUBLE PRECISION, not BIGINT. -/
theorem int_with_missing_counterexample :
    pg_type_from_series (read_csv_column [Cell.str "1", Cell.missing]) ≠ "BIGINT" ∧
      pg_type_from_series (read_csv_column [Cell.str "1", Cell.missing]) = "DOUBLE PRECISION" := by
  decide

/-- C4 amended: a non-empty column whose values are all integer literals
with no missing value is read as int64 and typed BIGINT (this dtype check
is the first, so it takes priority over all other types); an
integer-representable column that contains a missing value is promoted by
pandas to float64 and typed DOUBLE PRECISION instead. -/
theorem int_column_bigint (vals : List Cell) (hne : vals ≠ [])
    (hall : ∀ c ∈ vals, ∃ s, c = Cell.str s ∧ isIntLit s = true) :
    pg_type_from_series (read_csv_column vals) = "BIGINT" ∧
      ∀ vals2 : List Cell, vals2 ≠ [] →
        (∀ c ∈ vals2, c = Cell.missing ∨ ∃ s, c = Cell.str s ∧ isIntLit s = true) →
        (∃ c ∈ vals2, c = Cell.missing) →
        pg_type_from_series (read_csv_column vals2) = "DOUBLE PRECISION" := by
  constructor
  · have hallb : vals.all cellIsIntLit = true :=
      List.all_eq_true.mpr (fun c hc => by
        obtain ⟨s, rfl, hint⟩ := hall c hc
        simpa [cellIsIntLit] using hint)
    have hdt : inferDtype vals = Dtype.int64 := by
      simp only [inferDtype]
      rw [if_pos ⟨hne, hallb⟩]
    simp [pg_type_from_series, read_csv_column, hdt]
  · rintro vals2 hne2 hall2 ⟨cm, hcm, hcmeq⟩
    have hint : vals2.all cellIsIntLit = false := by
      cases hax : vals2.all cellIsIntLit with
      | false => rfl
      | true =>
        have hmem := List.all_eq_true.mp hax cm hcm
        rw [hcmeq] at hmem
        simp [cellIsIntLit] at hmem
    have hflt : vals2.all cellIsFloatOrMissing = true :=
      List.all_eq_true.mpr (fun c hc => by
        rcases hall2 c hc with rfl | ⟨s, rfl, hints⟩
        · rfl
        · simpa [cellIsFloatOrMissing] using isIntLit_isFloatLit hints)
    have hdt : inferDtype vals2 = Dtype.float64 := by
      simp only [inferDtype]
      rw [if_neg (by simp [hint]), if_pos ⟨hne2, hflt⟩]
    simp [pg_type_from_series, read_csv_column, hdt]

/-- C4 witness: a pure integer column is typed BIGINT and an integer
column with a missing value is typed DOUBLE PRECISION. -/
theorem int_column_bigint_witness :
    pg_type_from_series (read_csv_column [Cell.str "1", Cell.str "2"]) = "BIGINT" ∧
      pg_type_from_series (read_csv_column [Cell.str "3", Cell.missing]) = "DOUBLE PRECISION" := by
  have h := int_column_bigint [Cell.str "1", Cell.str "2"] (by decide)
    (fun c hc => by
      simp at hc
      rcases hc with rfl | rfl
      · exact ⟨"1", rfl, by decide⟩
      · exact ⟨"2", rfl, by decide⟩)
  refine ⟨h.1, h.2 [Cell.str "3", Cell.missing] (by decide) ?_ ?_⟩
  · intro c hc
    simp at hc
    rcases hc with rfl | rfl
    · exact Or.inr ⟨"3", rfl, by decide⟩
    · exact Or.inl rfl
  · exact ⟨Cell.missing, by simp, rfl⟩

/-- C5 counterexample: an all-missing column is read by pandas as an
all-NaN float64 column, so the code types it DOUBLE PRECISION, not TEXT as
the claim states. -/
theorem all_missing_counterexample :
    pg_type_from_series (read_csv_column [Cell.missing]) ≠ "TEXT" ∧
      pg_type_from_series (read_csv_column [Cell.missing]) = "DOUBLE PRECISION" := by
  decide

/-- C5 amended: in the pipeline an all-missing non-empty column is read as
float64 and typed DOUBLE PRECISION; `pg_type_from_series` falls through to
TEXT on an all-missing series only when the series has object dtype, which
`read_csv` does not produce for such a column. -/
theorem all_missing_column_type (vals : List Cell) (hne : vals ≠ [])
    (hall : ∀ c ∈ vals, c = Cell.missing) :
    pg_type_from_series (read_csv_column vals) = "DOUBLE PRECISION" ∧
      pg_type_from_series ⟨Dtype.obj, vals⟩ = "TEXT" := by
  constructor
  · have hint : vals.all cellIsIntLit = false := by
      cases vals with
      | nil => exact absurd rfl hne
      | cons c cs =>
        have hc := hall c (by simp)
        subst hc
        simp [List.all_cons, cellIsIntLit]
    have hflt : vals.all cellIsFloatOrMissing = true :=
      List.all_eq_true.mpr (fun c hc => by rw [hall c hc]; rfl)
    have hdt : inferDtype vals = Dtype.float64 := by
      simp only [inferDtype]
      rw [if_neg (by simp [hint]), if_pos ⟨hne, hflt⟩]
    simp [pg_type_from_series, read_csv_column, hdt]
  · have hfil : vals.filter (fun c => !(cellIsMissing c)) = [] := by
      rw [List.filter_eq_nil_iff]
      intro a ha
      rw [hall a ha]
      decide
    simp [pg_type_from_series, hfil]

/-- C5 witness: a two-row all-missing column is typed DOUBLE PRECISION by
the pipeline, and TEXT only under object dtype. -/
theorem all_missing_column_type_witness :
    pg_type_from_series (read_csv_column [Cell.missing, Cell.missing]) = "DOUBLE PRECISION" ∧
      pg_type_from_series ⟨Dtype.obj, [Cell.missing, Cell.missing]⟩ = "TEXT" :=
  all_missing_column_type [Cell.missing, Cell.missing] (by decide)
    (fun c hc => by simpa using hc)

theorem strExt : ∀ {a b : String}, a.data = b.data → a = b
  | ⟨_⟩, ⟨_⟩, rfl => rfl

theorem strDataAppend (a b : String) : (a ++ b).data = a.data ++ b.data := rfl

theorem strAppend_assoc (a b c : String) : a ++ b ++ c = a ++ (b ++ c) :=
  strExt (by rw [strDataAppend, strDataAppend, strDataAppend, strDataAppend, List.append_assoc])

theorem ddl_head_regroup (J : String) :
    (" (\n    " : String) ++ ("id SERIAL PRIMARY KEY" ++ (",\n    " ++ J)) =
      " (\n    id SERIAL PRIMARY KEY,\n    " ++ J := by
  rw [← strAppend_assoc, ← strAppend_assoc]
  rw [show (" (\n    " : String) ++ "id SERIAL PRIMARY KEY" ++ ",\n    " =
    " (\n    id SERIAL PRIMARY KEY,\n    " from by decide]

/-- C6 counterexample: on a dataset with zero columns the generated DDL is
not of the claimed shape: it keeps a dangling comma after the `id` column
(`..., id SERIAL PRIMARY KEY,\n    \n);`), so the claimed form fails for
that dataset. -/
theorem ddl_empty_dataset_counterexample :
    generate_create_table_sql [] "public" "nashville_housing" ≠
        ddlClaim [] "public" "nashville_housing" ∧
      generate_create_table_sql [] "public" "nashville_housing" =
        "CREATE TABLE IF NOT EXISTS public.nashville_housing (\n    id SERIAL PRIMARY KEY,\n    \n);\n" := by
  decide

/-- C6 amended: for every dataset with at least one column, the generated
DDL is exactly the claimed `CREATE TABLE IF NOT EXISTS <schema>.<table>`
statement whose first column is the synthetic `id SERIAL PRIMARY KEY`
(never derived from the data), followed by one rendered definition per
source column in dataset order, sanitized name plus inferred type, with
duplicates kept (one part per column, so the part list has the dataset's
length); for a zero-column dataset the emitted text instead carries a
dangling comma after the id column. -/
theorem generate_ddl_matches_claim (df : List (String × Series)) (schema table : String)
    (h : df ≠ []) :
    generate_create_table_sql df schema table = ddlClaim df schema table ∧
      (ddlColumnParts df).length = df.length := by
  constructor
  · cases df with
    | nil => exact absurd rfl h
    | cons p rest =>
      simp only [generate_create_table_sql, ddlClaim, ddlColumnParts, List.map_cons, joinSep]
      simp only [strAppend_assoc, ddl_head_regroup]
  · simp [ddlColumnParts]

/-- C6 witness: two raw names that sanitize to the same identifier both
appear in the DDL (no deduplication), and the claimed shape matches. -/
theorem generate_ddl_matches_claim_witness :
    generate_create_table_sql
        [("Sale Date", Series.mk Dtype.obj [Cell.str "2024-01-01"]),
          ("Sale-Date", Series.mk Dtype.obj [Cell.str "2024-01-01"])] "public" "t" =
      ddlClaim
        [("Sale Date", Series.mk Dtype.obj [Cell.str "2024-01-01"]),
          ("Sale-Date", Series.mk Dtype.obj [Cell.str "2024-01-01"])] "public" "t" ∧
      (ddlColumnParts
        [("Sale Date", Series.mk Dtype.obj [Cell.str "2024-01-01"]),
          ("Sale-Date", Series.mk Dtype.obj [Cell.str "2024-01-01"])]).length =
        [("Sale Date", Series.mk Dtype.obj [Cell.str "2024-01-01"]),
          ("Sale-Date", Series.mk Dtype.obj [Cell.str "2024-01-01"])].length :=
  generate_ddl_matches_claim
    [("Sale Date", Series.mk Dtype.obj [Cell.str "2024-01-01"]),
      ("Sale-Date", Series.mk Dtype.obj [Cell.str "2024-01-01"])] "public" "t" (by decide)

theorem prepareDf_eq (raw : List (String × List Cell)) :
    prepareDf raw =
      (raw.filter fun p => !(isUnnamedRaw p.1)).map
        (fun p =>
          if sanitize p.1 = "sale_date" then (sanitize p.1, coerce_sale_date (read_csv_column p.2))
          else (sanitize p.1, read_csv_column p.2)) := by
  simp only [prepareDf, read_csv, List.filter_map, List.map_map]
  rfl

/-- C9: every source column whose raw name, lowercased, starts with
`unnamed` is dropped before sanitization, date coercion, DDL generation and
loading: the prepared DataFrame is exactly the per-column transform of the
non-unnamed source columns, in order, and every prepared column's name is
the sanitized name of some non-unnamed source column. -/
theorem unnamed_columns_dropped (raw : List (String × List Cell)) :
    prepareDf raw =
      (raw.filter fun p => !(isUnnamedRaw p.1)).map
        (fun p =>
          if sanitize p.1 = "sale_date" then (sanitize p.1, coerce_sale_date (read_csv_column p.2))
          else (sanitize p.1, read_csv_column p.2)) ∧
      ∀ p ∈ prepareDf raw, ∃ q ∈ raw, isUnnamedRaw q.1 = false ∧ p.1 = sanitize q.1 := by
  refine ⟨prepareDf_eq raw, ?_⟩
  intro p hp
  rw [prepareDf_eq raw] at hp
  obtain ⟨q, hqmem, rfl⟩ := List.mem_map.mp hp
  have hqf := List.mem_filter.mp hqmem
  refine ⟨q, hqf.1, by simpa using hqf.2, ?_⟩
  by_cases hsd : sanitize q.1 = "sale_date" <;> simp [hsd]

/-- C9 witness: a concrete dataset with an `Unnamed: 0` column prepares to
exactly the transform of its non-unnamed columns. -/
theorem unnamed_columns_dropped_witness :
    prepareDf [("Unnamed: 0", [Cell.str "0"]), ("Price", [Cell.str "5"])] =
      (([("Unnamed: 0", [Cell.str "0"]), ("Price", [Cell.str "5"])].filter
          fun p => !(isUnnamedRaw p.1)).map
        (fun p =>
          if sanitize p.1 = "sale_date" then (sanitize p.1, coerce_sale_date (read_csv_column p.2))
          else (sanitize p.1, read_csv_column p.2))) :=
  (unnamed_columns_dropped [("Unnamed: 0", [Cell.str "0"]), ("Price", [Cell.str "5"])]).1

/-- C10: after sanitization, every prepared column named `sale_date` holds
the date-coerced values of its source column, every other prepared column
holds its source values unchanged, and the coercion maps each cell to its
parsed date, replacing every unparseable value by missing. -/
theorem sale_date_coercion (raw : List (String × List Cell)) :
    (∀ p ∈ prepareDf raw, p.1 = "sale_date" →
        ∃ q ∈ raw, isUnnamedRaw q.1 = false ∧ sanitize q.1 = "sale_date" ∧
          p.2 = coerce_sale_date (read_csv_column q.2)) ∧
      (∀ p ∈ prepareDf raw, p.1 ≠ "sale_date" →
        ∃ q ∈ raw, isUnnamedRaw q.1 = false ∧ sanitize q.1 = p.1 ∧
          p.2 = read_csv_column q.2) ∧
      ∀ vals : List Cell,
        (coerce_sale_date (read_csv_column vals)).values =
          vals.map (fun c =>
            match c with
            | Cell.missing => Cell.missing
            | Cell.str v =>
              match pyParseDate v with
              | some (y, m, d) => Cell.date y m d
              | none => Cell.missing
            | Cell.date y m d => Cell.date y m d) := by
  refine ⟨?_, ?_, fun vals => rfl⟩
  · intro p hp hsd
    rw [prepareDf_eq raw] at hp
    obtain ⟨q, hqmem, rfl⟩ := List.mem_map.mp hp
    have hqf := List.mem_filter.mp hqmem
    by_cases h : sanitize q.1 = "sale_date"
    · refine ⟨q, hqf.1, by simpa using hqf.2, h, ?_⟩
      simp [h]
    · rw [if_neg h] at hsd
      exact absurd hsd h
  · intro p hp hsd
    rw [prepareDf_eq raw] at hp
    obtain ⟨q, hqmem, rfl⟩ := List.mem_map.mp hp
    have hqf := List.mem_filter.mp hqmem
    by_cases h : sanitize q.1 = "sale_date"
    · rw [if_pos h] at hsd
      exact absurd h hsd
    · refine ⟨q, hqf.1, by simpa using hqf.2, ?_, ?_⟩ <;> simp [h]

/-- C10 witness: a `Sale Date` column is coerced, with the unparseable cell
becoming missing. -/
theorem sale_date_coercion_witness :
    ∃ q ∈ [("Sale Date", [Cell.str "2024-01-01", Cell.str "bad"])],
      isUnnamedRaw q.1 = false ∧ sanitize q.1 = "sale_date" ∧
        coerce_sale_date (read_csv_column [Cell.str "2024-01-01", Cell.str "bad"]) =
          coerce_sale_date (read_csv_column q.2) :=
  (sale_date_coercion [("Sale Date", [Cell.str "2024-01-01", Cell.str "bad"])]).1
    ("sale_date", coerce_sale_date (read_csv_column [Cell.str "2024-01-01", Cell.str "bad"]))
    (by decide) rfl

/-- C1 counterexample: on a first run (table absent) with a failure
injected into the bulk load, the run fails but the table is present
afterwards — the CREATE TABLE was committed on its own before the COPY, so
the claimed atomic rollback does not happen. -/
theorem create_not_rolled_back_counterexample :
    (mainLoad [("a", [Cell.str "1"])] ⟨false, 0⟩ "public" "t" true).db.tablePresent = true ∧
      (mainLoad [("a", [Cell.str "1"])] ⟨false, 0⟩ "public" "t" true).success = false := by
  decide

/-- C1 amended: table creation is committed in its own transaction (line
134) before the bulk load; if the load then fails, only the load's
transaction is rolled back, leaving the newly created empty table present
with no rows added, and on success both the creation and the full row load
end up committed. -/
theorem create_committed_separately (raw : List (String × List Cell)) (db0 : PgState)
    (s t : String) (h : db0.tablePresent = false) :
    (mainLoad raw db0 s t true).db.tablePresent = true ∧
      (mainLoad raw db0 s t true).db.rowCount = db0.rowCount ∧
      (mainLoad raw db0 s t true).success = false ∧
      (mainLoad raw db0 s t false).db =
        ⟨true, db0.rowCount + dfRowCount (prepareDf raw)⟩ := by
  obtain ⟨tp, rc⟩ := db0
  simp only [PgState.tablePresent] at h
  subst h
  simp [mainLoad, table_exists, commitTx, rollbackTx, execCreateTable, execCopy]

/-- C1 witness: a concrete first run with an injected load failure leaves
the table committed and the row count unchanged; without the failure both
creation and rows commit. -/
theorem create_committed_separately_witness :
    (mainLoad [("b", [Cell.str "x", Cell.str "y"])] ⟨false, 7⟩ "s" "tb" true).db.tablePresent =
        true ∧
      (mainLoad [("b", [Cell.str "x", Cell.str "y"])] ⟨false, 7⟩ "s" "tb" true).db.rowCount = 7 ∧
      (mainLoad [("b", [Cell.str "x", Cell.str "y"])] ⟨false, 7⟩ "s" "tb" true).success = false ∧
      (mainLoad [("b", [Cell.str "x", Cell.str "y"])] ⟨false, 7⟩ "s" "tb" false).db =
        ⟨true, 7 + dfRowCount (prepareDf [("b", [Cell.str "x", Cell.str "y"])])⟩ :=
  create_committed_separately [("b", [Cell.str "x", Cell.str "y"])] ⟨false, 7⟩ "s" "tb" rfl

/-- C7: when the target table already exists at the schema check, the run
executes no DDL and proceeds directly to the bulk load, appending the
DataFrame's rows to the existing count; conversely a run that executes any
DDL must have started with the table absent. -/
theorem existing_table_appends (raw : List (String × List Cell)) (db0 : PgState)
    (s t : String) (f : Bool) (h : db0.tablePresent = true) :
    (mainLoad raw db0 s t f).ddlExecuted = [] ∧
      (f = false →
        (mainLoad raw db0 s t f).db = ⟨true, db0.rowCount + dfRowCount (prepareDf raw)⟩) ∧
      ∀ (raw2 : List (String × List Cell)) (db2 : PgState) (f2 : Bool),
        (mainLoad raw2 db2 s t f2).ddlExecuted ≠ [] → db2.tablePresent = false := by
  obtain ⟨tp, rc⟩ := db0
  simp only [PgState.tablePresent] at h
  subst h
  refine ⟨?_, ?_, ?_⟩
  · cases f <;> simp [mainLoad, table_exists]
  · intro hf
    subst hf
    simp [mainLoad, table_exists, commitTx, execCopy]
  · intro raw2 db2 f2 hne
    obtain ⟨tp2, rc2⟩ := db2
    simp only [PgState.tablePresent]
    cases htp2 : tp2 with
    | false => rfl
    | true =>
      subst htp2
      cases f2 <;> simp [mainLoad, table_exists] at hne

/-- C7 witness: loading into an existing table executes zero DDL and
appends the rows. -/
theorem existing_table_appends_witness :
    (mainLoad [("a", [Cell.str "x"])] ⟨true, 2⟩ "public" "t" false).ddlExecuted = [] ∧
      (mainLoad [("a", [Cell.str "x"])] ⟨true, 2⟩ "public" "t" false).db =
        ⟨true, 2 + dfRowCount (prepareDf [("a", [Cell.str "x"])])⟩ := by
  have h := existing_table_appends [("a", [Cell.str "x"])] ⟨true, 2⟩ "public" "t" false rfl
  exact ⟨h.1, h.2.1 rfl⟩

theorem wait_go_error (connOk : Nat → Bool) :
    ∀ fuel i : Nat, (∀ k, k < fuel → connOk (i + k) = false) →
      wait_for_db_go connOk fuel i = Except.error "Database not reachable after retries" := by
  intro fuel
  induction fuel with
  | zero => intro i _; rfl
  | succ n ih =>
    intro i h
    have h0 : connOk i = false := by simpa using h 0 (Nat.succ_pos n)
    simp [wait_for_db_go, h0]
    exact ih (i + 1) (fun k hk => by
      have h2 := h (k + 1) (Nat.succ_lt_succ hk)
      rwa [show i + (k + 1) = i + 1 + k by omega] at h2)

theorem wait_go_ok (connOk : Nat → Bool) :
    ∀ fuel i j : Nat, wait_for_db_go connOk fuel i = Except.ok j →
      j < i + fuel ∧ connOk j = true ∧ ∀ k, i ≤ k → k < j → connOk k = false := by
  intro fuel
  induction fuel with
  | zero => intro i j h; exact absurd h (by simp [wait_for_db_go])
  | succ n ih =>
    intro i j h
    cases hc : connOk i with
    | true =>
      simp [wait_for_db_go, hc] at h
      subst h
      exact ⟨by omega, hc, fun k hk1 hk2 => absurd hk2 (by omega)⟩
    | false =>
      simp [wait_for_db_go, hc] at h
      obtain ⟨h1, h2, h3⟩ := ih (i + 1) j h
      refine ⟨by omega, h2, fun k hk1 hk2 => ?_⟩
      rcases Nat.eq_or_lt_of_le hk1 with heq | hlt
      · exact heq ▸ hc
      · exact h3 k (by omega) hk2

/-- C8: the initial connection is retried up to the fixed bound of 20
attempts with the fixed 3-second inter-attempt delay; if every attempt in
the bound fails the run fails with the database-unreachable error; a
successful attempt happens within the bound and only after every earlier
attempt failed; and connection establishment is the only retried
operation: the load phase executes its DDL at most once and a bulk-load
failure ends the run as failed with no retry. -/
theorem connection_retry_policy (connOk : Nat → Bool) :
    ((∀ i, i < max_retries → connOk i = false) →
        wait_for_db connOk = Except.error "Database not reachable after retries") ∧
      (∀ j, wait_for_db connOk = Except.ok j →
        j < max_retries ∧ connOk j = true ∧ ∀ i, i < j → connOk i = false) ∧
      (∀ (raw : List (String × List Cell)) (db0 : PgState) (s t : String) (f : Bool),
        (mainLoad raw db0 s t f).ddlExecuted.length ≤ 1 ∧
          (mainLoad raw db0 s t true).success = false) ∧
      max_retries = 20 ∧ wait_seconds = 3 := by
  refine ⟨?_, ?_, ?_, rfl, rfl⟩
  · intro h
    exact wait_go_error connOk max_retries 0
      (fun k hk => by rw [Nat.zero_add]; exact h k hk)
  · intro j h
    obtain ⟨h1, h2, h3⟩ := wait_go_ok connOk max_retries 0 j h
    exact ⟨by simpa using h1, h2, fun i hi => h3 i (Nat.zero_le i) hi⟩
  · intro raw db0 s t f
    obtain ⟨tp, rc⟩ := db0
    constructor
    · cases tp <;> cases f <;> simp [mainLoad, table_exists]
    · cases tp <;> simp [mainLoad, table_exists]

/-- C8 witness: with every connection attempt failing, the run fails with
the database-unreachable error. -/
theorem connection_retry_policy_witness :
    wait_for_db (fun _ => false) = Except.error "Database not reachable after retries" :=
  (connection_retry_policy (fun _ => false)).1 (fun _ _ => rfl)
